import Mathlib

/-!
Shallow embedding of the voxel-world renderer core (cdecompilador/wgpu-renderer):
the chunk data model, neighbor queries and block placement (src/src/chunk.rs),
the voxel mesher (`VoxelMesh::serialize_chunk`), the indexed-mesh builder
(src/src/mesh.rs), and the per-chunk renderer registry (src/src/renderer/mod.rs).

Conventions of the embedding:
* Rust `usize`/`u8` values that never wrap are modelled as `Nat`; the `u16`
  index arithmetic of `MeshBuilder` wraps, so every `u16` operation is taken
  `% 65536` explicitly.
* `f32` vertex data is modelled as `ℚ`; all constants appearing in the code
  are small dyadic rationals on which `f32` arithmetic is exact.
* Rust `Option`/`Result` map to `Option`/`Except`; a `panic!`/`expect` is a
  distinguished outcome, not an error value.
* The 3-D array `[[[Block; L]; L]; H]` indexed `blocks[y][z][x]` is modelled
  as a total function `Nat → Nat → Nat → Block` (y z x) together with the
  bounds checks that every access in the source performs via `.get`.
-/

namespace WgpuRenderer

/-- `Face` enum (src/src/chunk.rs:8-15), in declaration order. -/
inductive Face where
  | Front
  | Back
  | Up
  | Down
  | Left
  | Right
  deriving DecidableEq, Repr

/-- `BlockPos` (src/src/chunk.rs:31-35): unsigned integer triple. -/
structure BlockPos where
  x : Nat
  y : Nat
  z : Nat
  deriving DecidableEq, Repr

/-- `Block` (src/src/chunk.rs:122-127).  The `u8` payload of `Id` is modelled
as `Nat`; no arithmetic is ever performed on it. -/
inductive Block where
  | Air
  | Dirt
  | Id (id : Nat)
  deriving DecidableEq, Repr

/-- `Chunk<L, H>` (src/src/chunk.rs:187-190): owns `blocks: [[[Block; L]; L]; H]`,
indexed `blocks[y][z][x]`. -/
structure Chunk (L H : Nat) where
  blocks : Nat → Nat → Nat → Block

/-- `usize::checked_sub`, as used by `BlockRef::neighbor` for the negative
face directions. -/
def checkedSub (a b : Nat) : Option Nat :=
  if a < b then none else some (a - b)

/-- The bounds condition enforced by the `.get(y) / .get(z) / .get(x)` chain in
`Chunk::index_block` and `Chunk::index_block_mut` (src/src/chunk.rs:199-219). -/
def inBounds (L H : Nat) (p : BlockPos) : Prop :=
  p.y < H ∧ p.z < L ∧ p.x < L

instance (L H : Nat) (p : BlockPos) : Decidable (inBounds L H p) :=
  inferInstanceAs (Decidable (_ ∧ _ ∧ _))

/-- `Chunk::new` (src/src/chunk.rs:193-197): all cells `Air`. -/
def Chunk.new {L H : Nat} : Chunk L H :=
  ⟨fun _ _ _ => Block.Air⟩

/-- `Chunk::index_block` (src/src/chunk.rs:199-213).  A `BlockRef` is its
(in-bounds) `block_pos` together with the chunk it points into; since the
chunk is always the ambient `c`, the ref is modelled by the position alone. -/
def Chunk.index_block {L H : Nat} (_c : Chunk L H) (p : BlockPos) :
    Option BlockPos :=
  if inBounds L H p then some p else none

/-- The `Deref` impl of `BlockRef` (src/src/chunk.rs:153-159): the `Block`
stored at a ref's position. -/
def Chunk.deref {L H : Nat} (c : Chunk L H) (p : BlockPos) : Block :=
  c.blocks p.y p.z p.x

/-- `BlockRef::neighbor` (src/src/chunk.rs:162-185).  Note the axis
convention of the implementation: `Front` is `z-1`, `Back` is `z+1`,
`Right` is `x+1`, `Left` is `x-1`, `Up` is `y+1`, `Down` is `y-1`;
the negative directions go through `checked_sub` and `?`. -/
def Chunk.neighbor {L H : Nat} (c : Chunk L H) (p : BlockPos) (f : Face) :
    Option BlockPos :=
  match f with
  | .Front => (checkedSub p.z 1).bind fun z => c.index_block ⟨p.x, p.y, z⟩
  | .Back  => c.index_block ⟨p.x, p.y, p.z + 1⟩
  | .Right => c.index_block ⟨p.x + 1, p.y, p.z⟩
  | .Left  => (checkedSub p.x 1).bind fun x => c.index_block ⟨x, p.y, p.z⟩
  | .Up    => c.index_block ⟨p.x, p.y + 1, p.z⟩
  | .Down  => (checkedSub p.y 1).bind fun y => c.index_block ⟨p.x, y, p.z⟩

/-- The spec's `neighbor_of(pos, face)` query: the `Block` behind
`BlockRef::neighbor`, i.e. `b.neighbor(face).map(|r| *r)`. -/
def Chunk.neighbor_of {L H : Nat} (c : Chunk L H) (p : BlockPos) (f : Face) :
    Option Block :=
  (c.neighbor p f).map c.deref

/-- `Chunk::place_block` (src/src/chunk.rs:221-229): writes through
`index_block_mut`, which performs the same bounds check as `index_block`.
The pair returns the `Option<()>` result together with the chunk state after
the call (`&mut self` in Rust). -/
def Chunk.place_block {L H : Nat} (c : Chunk L H) (p : BlockPos) (b : Block) :
    Option Unit × Chunk L H :=
  if inBounds L H p then
    (some (), ⟨fun y z x =>
      if y = p.y ∧ z = p.z ∧ x = p.x then b else c.blocks y z x⟩)
  else
    (none, c)

/-- The chunk state after a (successful) `place_block`, as used by the unit
tests via `.unwrap()`. -/
def Chunk.placed {L H : Nat} (c : Chunk L H) (p : BlockPos) (b : Block) :
    Chunk L H :=
  (c.place_block p b).2

/-- The sequence of positions produced by `Chunk::iter` / `ChunkIter`
(src/src/chunk.rs:231-280): row-major, `y` outermost, then `z`, then `x`. -/
def chunkPositions (L H : Nat) : List BlockPos :=
  (List.range H).flatMap fun y =>
    (List.range L).flatMap fun z =>
      (List.range L).map fun x => ⟨x, y, z⟩

/-- `VoxelMesh` (src/src/chunk.rs:47-50): parallel `faces`/`positions` vectors. -/
structure VoxelMesh where
  faces : List Face
  positions : List BlockPos
  deriving DecidableEq, Repr

/-- `VoxelMesh::new` (src/src/chunk.rs:69-74). -/
def VoxelMesh.new : VoxelMesh := ⟨[], []⟩

/-- The `add_face!` macro body (src/src/chunk.rs:52-66): push the face and the
block's position when the neighbor is absent, or present and `Air`. -/
def add_face {L H : Nat} (c : Chunk L H) (p : BlockPos) (m : VoxelMesh)
    (f : Face) : VoxelMesh :=
  match c.neighbor p f with
  | some q =>
      if c.deref q = Block.Air then
        ⟨m.faces ++ [f], m.positions ++ [p]⟩
      else m
  | none => ⟨m.faces ++ [f], m.positions ++ [p]⟩

/-- The order in which `serialize_chunk` invokes `add_face!`
(src/src/chunk.rs:88-93): the `Face` enumeration order. -/
def faceOrder : List Face :=
  [.Front, .Back, .Up, .Down, .Left, .Right]

/-- `VoxelMesh::serialize_chunk` (src/src/chunk.rs:76-95): clear both vectors,
then for every non-`Air` cell of the iteration append the visible faces in
`faceOrder`.  The first argument is the pre-call `VoxelMesh` state; it is
discarded by the initial `clear()` calls. -/
def VoxelMesh.serialize_chunk {L H : Nat} (_m : VoxelMesh) (c : Chunk L H) :
    VoxelMesh :=
  (chunkPositions L H).foldl
    (fun m p =>
      if c.deref p = Block.Air then m else faceOrder.foldl (add_face c p) m)
    VoxelMesh.new

/-- The spec's face-visibility predicate (§4.2): a face of the cell at `p` is
visible when its neighbor is absent (outside the chunk) or is `Air`. -/
def visible {L H : Nat} (c : Chunk L H) (p : BlockPos) (f : Face) : Bool :=
  match c.neighbor p f with
  | none => true
  | some q => decide (c.deref q = Block.Air)

/-- The entries a single cell contributes per the spec (§4.2): nothing for
an `Air` cell, otherwise one `(face, position)` entry for each visible face
in enumeration order. -/
def cellEntries {L H : Nat} (c : Chunk L H) (p : BlockPos) :
    List (Face × BlockPos) :=
  if c.deref p = Block.Air then []
  else (faceOrder.filter fun f => visible c p f).map fun f => (f, p)

/-- The spec's description of the mesher output (§4.2, claim C5): for each
non-`Air` cell in iteration order and each face in enumeration order, one
`(face, position)` entry exactly when the face is `visible`. -/
def faceEntries {L H : Nat} (c : Chunk L H) : List (Face × BlockPos) :=
  (chunkPositions L H).flatMap (cellEntries c)

/-! ### The chunk of `tests::chunk_iteration_and_access` (src/src/chunk.rs:288-310) -/

/-- The `Chunk<2, 2>` built by the test: `Id(1)` at (0,0,0), `Id(2)` at
(1,0,0), `Id(3)` at (0,0,1), `Id(4)` at (1,0,1), `Id(5)` at (0,1,0),
`Id(6)` at (1,1,0), `Id(7)` at (0,1,1), `Id(8)` at (1,1,1)
(coordinates in `BlockPos::new(x, y, z)` order). -/
def testChunk : Chunk 2 2 :=
  ((((((((Chunk.new.placed ⟨0, 0, 0⟩ (Block.Id 1)).placed
    ⟨1, 0, 0⟩ (Block.Id 2)).placed
    ⟨0, 0, 1⟩ (Block.Id 3)).placed
    ⟨1, 0, 1⟩ (Block.Id 4)).placed
    ⟨0, 1, 0⟩ (Block.Id 5)).placed
    ⟨1, 1, 0⟩ (Block.Id 6)).placed
    ⟨0, 1, 1⟩ (Block.Id 7)).placed
    ⟨1, 1, 1⟩ (Block.Id 8))

/-- Claim C1: on the 2×2×2 test chunk the implementation of
`BlockRef::neighbor` gives, from the block at (0,0,0): `Front` (that is,
`z-1`) absent, `Right` (`x+1`) the block `Id(2)` placed at (1,0,0), `Back`
(`z+1`) the block `Id(3)` placed at (0,0,1), `Left` absent, and the chain
`neighbor(Right)` then `neighbor(Up)` the block `Id(6)` placed at (1,1,0).
This contradicts both the claim and the repository's own test assertions
(chunk.rs:300-309), which expect `Front = Id(2)`, `Right = Id(3)` and the
chain to give `Id(7)`: the test was written for the axis convention
`Front = x+1`, `Right = z+1`, not the one the implementation uses. -/
theorem neighbor_convention_contradicts_test :
    testChunk.neighbor_of ⟨0, 0, 0⟩ .Front = none
    ∧ testChunk.neighbor_of ⟨0, 0, 0⟩ .Right = some (Block.Id 2)
    ∧ testChunk.neighbor_of ⟨0, 0, 0⟩ .Back = some (Block.Id 3)
    ∧ testChunk.neighbor_of ⟨0, 0, 0⟩ .Left = none
    ∧ ((testChunk.neighbor ⟨0, 0, 0⟩ .Right).bind
          fun q => testChunk.neighbor q .Up).map testChunk.deref
        = some (Block.Id 6) := by
  decide

/-! ### Mesh and MeshBuilder (src/src/mesh.rs) -/

/-- `Vertex` (src/src/mesh.rs:193-198).  `f32` is modelled as `ℚ`; every
constant in the source is a small dyadic rational on which `f32` arithmetic
is exact. -/
structure Vertex where
  position : ℚ × ℚ × ℚ
  color : ℚ × ℚ × ℚ
  deriving DecidableEq, Repr

/-- `Vertex::translate` (src/src/mesh.rs:215-225): add the block position
componentwise to the float position. -/
def Vertex.translate (v : Vertex) (p : BlockPos) : Vertex :=
  ⟨(v.position.1 + p.x, v.position.2.1 + p.y, v.position.2.2 + p.z), v.color⟩

/-- `Mesh` (src/src/mesh.rs:6-10): vertex list plus 16-bit index list.  The
`u16` indices are modelled as `Nat`, with every arithmetic operation on them
taken `% 65536`. -/
structure Mesh where
  vertices : List Vertex
  indices : List Nat
  deriving DecidableEq, Repr

/-- The `face!` macro (src/src/mesh.rs:12-24): four vertices with the fixed
colors and the fixed index pattern `[0, 1, 2, 0, 3, 1]`. -/
def mkFace (v1 v2 v3 v4 : ℚ × ℚ × ℚ) : Mesh :=
  ⟨[⟨v1, (1, 0, 0)⟩, ⟨v2, (0, 1, 0)⟩, ⟨v3, (0, 0, 1)⟩, ⟨v4, (1, 1, 1)⟩],
   [0, 1, 2, 0, 3, 1]⟩

/-- `Mesh::UP_FACE` (src/src/mesh.rs:37-41). -/
def Mesh.UP_FACE : Mesh :=
  mkFace (-0.5, 0.5, 0.5) (0.5, 0.5, -0.5) (-0.5, 0.5, -0.5) (0.5, 0.5, 0.5)

/-- `Mesh::DOWN_FACE` (src/src/mesh.rs:43-47). -/
def Mesh.DOWN_FACE : Mesh :=
  mkFace (-0.5, -0.5, 0.5) (0.5, -0.5, -0.5) (-0.5, -0.5, -0.5) (0.5, -0.5, 0.5)

/-- `Mesh::LEFT_FACE` (src/src/mesh.rs:49-53). -/
def Mesh.LEFT_FACE : Mesh :=
  mkFace (-0.5, -0.5, 0.5) (-0.5, 0.5, -0.5) (-0.5, -0.5, -0.5) (-0.5, 0.5, 0.5)

/-- `Mesh::RIGHT_FACE` (src/src/mesh.rs:55-59). -/
def Mesh.RIGHT_FACE : Mesh :=
  mkFace (0.5, -0.5, 0.5) (0.5, 0.5, -0.5) (0.5, -0.5, -0.5) (0.5, 0.5, 0.5)

/-- `Mesh::FRONT_FACE` (src/src/mesh.rs:61-65). -/
def Mesh.FRONT_FACE : Mesh :=
  mkFace (0.5, -0.5, -0.5) (-0.5, 0.5, -0.5) (-0.5, -0.5, -0.5) (0.5, 0.5, -0.5)

/-- `Mesh::BACK_FACE` (src/src/mesh.rs:67-71). -/
def Mesh.BACK_FACE : Mesh :=
  mkFace (0.5, -0.5, 0.5) (-0.5, 0.5, 0.5) (-0.5, -0.5, 0.5) (0.5, 0.5, 0.5)

/-- `Face::mesh` (src/src/chunk.rs:17-28). -/
def Face.mesh : Face → Mesh
  | .Front => Mesh.FRONT_FACE
  | .Back  => Mesh.BACK_FACE
  | .Up    => Mesh.UP_FACE
  | .Down  => Mesh.DOWN_FACE
  | .Left  => Mesh.LEFT_FACE
  | .Right => Mesh.RIGHT_FACE

/-- `MeshBuilder` (src/src/mesh.rs:143-147); `curr_idx` is a `u16`. -/
structure MeshBuilder where
  vertices : List Vertex
  indices : List Nat
  curr_idx : Nat
  deriving DecidableEq, Repr

/-- `MeshBuilder::new` (src/src/mesh.rs:150-156). -/
def MeshBuilder.new : MeshBuilder := ⟨[], [], 0⟩

/-- `MeshBuilder::push` (src/src/mesh.rs:158-168): compute the maximum index
of the pushed mesh, append `curr_idx + index` for each of its indices, bump
`curr_idx` by `max_idx + 1`, and append the translated vertices.  All `u16`
additions are taken `% 65536` (release-mode wrapping). -/
def MeshBuilder.push (b : MeshBuilder) (m : Mesh) (p : BlockPos) : MeshBuilder :=
  let max_idx := m.indices.foldl Nat.max 0
  { vertices := b.vertices ++ m.vertices.map fun v => v.translate p,
    indices := b.indices ++ m.indices.map fun i => (b.curr_idx + i) % 65536,
    curr_idx := (b.curr_idx + max_idx + 1) % 65536 }

/-- `MeshBuilder::build` (src/src/mesh.rs:170-172). -/
def MeshBuilder.build (b : MeshBuilder) : Mesh :=
  ⟨b.vertices, b.indices⟩

/-- The push loop of `VoxelMesh::mesh` (src/src/chunk.rs:113-116), started
from an arbitrary builder state. -/
def pushAllFrom (b : MeshBuilder) (l : List (Face × BlockPos)) : MeshBuilder :=
  l.foldl (fun b fp => b.push fp.1.mesh fp.2) b

/-- The push loop of `VoxelMesh::mesh`, from a fresh `MeshBuilder`. -/
def pushAll (l : List (Face × BlockPos)) : MeshBuilder :=
  pushAllFrom MeshBuilder.new l

/-- `VoxelMesh::mesh` (src/src/chunk.rs:106-119): zip the parallel vectors
(the `assert_eq!` on their lengths always holds for mesher output), push each
face's geometry at its position, and build.  -/
def VoxelMesh.mesh (vm : VoxelMesh) : Mesh :=
  (pushAll (vm.faces.zip vm.positions)).build

/-! ### Renderer registry (src/src/renderer/mod.rs, src/src/renderer/voxel_renderer.rs) -/

/-- Modelled from the spec (§3): `ChunkPos — integer pair (x, z) identifying a
chunk's position in the world grid`.  The type is referenced from
`crate::chunk` by src/src/renderer/mod.rs and src/src/world.rs but its
declaration is missing from src/src/chunk.rs. -/
structure ChunkPos where
  x : Int
  z : Int
  deriving DecidableEq, Repr

/-- Modelled from the spec (§3, §4.1): the renderer-side chunk knows its own
`ChunkPos` (`chunk.pos()` in src/src/renderer/mod.rs); that accessor is
missing from src/src/chunk.rs, so the position is carried alongside the
block grid. -/
structure PosChunk (L H : Nat) where
  pos : ChunkPos
  chunk : Chunk L H

/-- `ChunkRenderer` (src/src/renderer/voxel_renderer.rs:9-13): the optional
uploaded model (GPU buffers are out of scope, the model is its `Mesh`) and
the renderer's `VoxelMesh` scratch state.  The `VoxelPipeline` is opaque
GPU state and is not modelled. -/
structure ChunkRenderer where
  model : Option Mesh
  voxel_mesh : VoxelMesh
  deriving DecidableEq, Repr

/-- `ChunkRenderer::new` (src/src/renderer/voxel_renderer.rs:17-26); pipeline
creation (the only fallible step, a GPU resource acquisition) is treated as
succeeding. -/
def ChunkRenderer.new : ChunkRenderer :=
  ⟨none, VoxelMesh.new⟩

/-- `ChunkRenderer::update_model` (src/src/renderer/voxel_renderer.rs:29-38):
re-serialize the chunk into the stored `VoxelMesh`, build the mesh, store the
new model. -/
def ChunkRenderer.update_model {L H : Nat} (r : ChunkRenderer) (c : Chunk L H) :
    ChunkRenderer :=
  let vm := r.voxel_mesh.serialize_chunk c
  ⟨some vm.mesh, vm⟩

/-- `ChunksRenderer` (src/src/renderer/mod.rs:18-20): the
`HashMap<ChunkPos, ChunkRenderer>` registry, modelled as a lookup function. -/
structure ChunksRenderer where
  renderers : ChunkPos → Option ChunkRenderer

/-- `ChunksRenderer::new` (src/src/renderer/mod.rs:23-27). -/
def ChunksRenderer.new : ChunksRenderer :=
  ⟨fun _ => none⟩

/-- `ChunksRenderer::load_chunk` (src/src/renderer/mod.rs:29-38): a plain
`HashMap::insert` of a fresh `ChunkRenderer` for `chunk_pos` followed by
`Ok(())`.  `insert` replaces any existing entry. -/
def ChunksRenderer.load_chunk (s : ChunksRenderer) (pos : ChunkPos) :
    Except String ChunksRenderer :=
  .ok ⟨fun q => if q = pos then some ChunkRenderer.new else s.renderers q⟩

/-- `ChunksRenderer::unload_chunk` (src/src/renderer/mod.rs:40-42). -/
def ChunksRenderer.unload_chunk (s : ChunksRenderer) (pos : ChunkPos) :
    ChunksRenderer :=
  ⟨fun q => if q = pos then none else s.renderers q⟩

/-- The outcome of `ChunksRenderer::update_chunk`, which returns `()` on the
happy path and panics otherwise: a panic is a distinguished non-return
outcome, not a value handed to the caller. -/
inductive UpdateResult where
  | ok (s : ChunksRenderer)
  | panic (msg : String)

/-- `ChunksRenderer::update_chunk` (src/src/renderer/mod.rs:44-55): look up
the renderer for `chunk.pos()`; on a miss the code calls
`.expect("ChunkRenderer not found")`, i.e. it panics; on a hit it runs
`update_model` in place. -/
def ChunksRenderer.update_chunk {L H : Nat} (s : ChunksRenderer)
    (c : PosChunk L H) : UpdateResult :=
  match s.renderers c.pos with
  | none => .panic "ChunkRenderer not found"
  | some r =>
      .ok ⟨fun q =>
        if q = c.pos then some (r.update_model c.chunk) else s.renderers q⟩

/-! ### Derived notions used by the spec's properties -/

/-- The spec's `opposite` pairing of faces (§8): Front/Back, Left/Right,
Up/Down. -/
def Face.opposite : Face → Face
  | .Front => .Back
  | .Back  => .Front
  | .Right => .Left
  | .Left  => .Right
  | .Up    => .Down
  | .Down  => .Up

/-- `q = p + Δface` with the implementation's offsets (`Front = z-1`,
`Back = z+1`, `Right = x+1`, `Left = x-1`, `Up = y+1`, `Down = y-1`);
negative offsets are phrased additively to stay in `Nat`. -/
def adjacent (p q : BlockPos) : Face → Prop
  | .Front => q.x = p.x ∧ q.y = p.y ∧ q.z + 1 = p.z
  | .Back  => q.x = p.x ∧ q.y = p.y ∧ q.z = p.z + 1
  | .Right => q.x = p.x + 1 ∧ q.y = p.y ∧ q.z = p.z
  | .Left  => q.x + 1 = p.x ∧ q.y = p.y ∧ q.z = p.z
  | .Up    => q.x = p.x ∧ q.y = p.y + 1 ∧ q.z = p.z
  | .Down  => q.x = p.x ∧ q.y + 1 = p.y ∧ q.z = p.z

instance (p q : BlockPos) (f : Face) : Decidable (adjacent p q f) :=
  match f with
  | .Front => inferInstanceAs (Decidable (_ ∧ _ ∧ _))
  | .Back  => inferInstanceAs (Decidable (_ ∧ _ ∧ _))
  | .Right => inferInstanceAs (Decidable (_ ∧ _ ∧ _))
  | .Left  => inferInstanceAs (Decidable (_ ∧ _ ∧ _))
  | .Up    => inferInstanceAs (Decidable (_ ∧ _ ∧ _))
  | .Down  => inferInstanceAs (Decidable (_ ∧ _ ∧ _))

/-- The claim's outward-edge condition for `neighbor_of` absence: the shifted
coordinate underflows below 0 (component 0, negative direction) or reaches
the chunk bound. -/
def outward_absent (L H : Nat) (p : BlockPos) : Face → Prop
  | .Front => p.z = 0
  | .Back  => L ≤ p.z + 1
  | .Right => L ≤ p.x + 1
  | .Left  => p.x = 0
  | .Up    => H ≤ p.y + 1
  | .Down  => p.y = 0

instance (L H : Nat) (p : BlockPos) (f : Face) :
    Decidable (outward_absent L H p f) :=
  match f with
  | .Front => inferInstanceAs (Decidable (_ = _))
  | .Back  => inferInstanceAs (Decidable (_ ≤ _))
  | .Right => inferInstanceAs (Decidable (_ ≤ _))
  | .Left  => inferInstanceAs (Decidable (_ = _))
  | .Up    => inferInstanceAs (Decidable (_ ≤ _))
  | .Down  => inferInstanceAs (Decidable (_ = _))

/-! ### Claims C2 and C3: registry error handling -/

/-- A registry holding a non-fresh renderer entry (a renderer with an
uploaded model) at chunk position (0, 0). -/
def occupiedRegistry : ChunksRenderer :=
  ⟨fun q => if q = ⟨0, 0⟩ then some ⟨some ⟨[], []⟩, VoxelMesh.new⟩ else none⟩

/-- Claim C2 counterexample: loading the already-present position (0, 0)
does not report a failure — `load_chunk` returns `Ok` — and the existing
entry is replaced by a fresh `ChunkRenderer`, so it is not left untouched. -/
theorem load_chunk_duplicate_not_failure :
    occupiedRegistry.load_chunk ⟨0, 0⟩
      = .ok ⟨fun q => if q = ⟨0, 0⟩ then some ChunkRenderer.new
               else occupiedRegistry.renderers q⟩
    ∧ (⟨fun q => if q = ⟨0, 0⟩ then some ChunkRenderer.new
          else occupiedRegistry.renderers q⟩ : ChunksRenderer).renderers ⟨0, 0⟩
        ≠ occupiedRegistry.renderers ⟨0, 0⟩ := by
  exact ⟨rfl, by decide⟩

/-- Claim C2, amended: for every registry state and position, `load_chunk`
never reports an error; it succeeds and installs a fresh renderer entry at
`pos` (replacing any existing one), leaving every other position's entry
unchanged. -/
theorem load_chunk_always_replaces (s : ChunksRenderer) (pos : ChunkPos) :
    (∀ e : String, s.load_chunk pos ≠ .error e)
    ∧ ∀ s', s.load_chunk pos = .ok s' →
        s'.renderers pos = some ChunkRenderer.new
        ∧ ∀ q, q ≠ pos → s'.renderers q = s.renderers q := by
  constructor
  · intro e h
    simp [ChunksRenderer.load_chunk] at h
  · intro s' h
    have hs : s' = ⟨fun q => if q = pos then some ChunkRenderer.new
        else s.renderers q⟩ := by
      simpa [ChunksRenderer.load_chunk, eq_comm] using h
    subst hs
    exact ⟨by simp, fun q hq => by simp [hq]⟩

/-- Witness for `load_chunk_always_replaces` at a fresh registry and the
position (3, -1). -/
theorem load_chunk_always_replaces_witness :
    (ChunksRenderer.new.load_chunk ⟨3, -1⟩ ≠ .error "already loaded")
    ∧ (⟨fun q => if q = ⟨3, -1⟩ then some ChunkRenderer.new
          else ChunksRenderer.new.renderers q⟩ : ChunksRenderer).renderers ⟨3, -1⟩
        = some ChunkRenderer.new :=
  ⟨(load_chunk_always_replaces ChunksRenderer.new ⟨3, -1⟩).1 "already loaded",
   ((load_chunk_always_replaces ChunksRenderer.new ⟨3, -1⟩).2 _ rfl).1⟩

/-- Claim C3 counterexample: calling `update_chunk` on a fresh registry (no
entry for the chunk's position) panics via
`.expect("ChunkRenderer not found")` — the failure is fatal, and nothing is
returned to the caller for it to recover from. -/
theorem update_chunk_missing_entry_is_panic :
    ChunksRenderer.new.update_chunk (⟨⟨0, 0⟩, Chunk.new⟩ : PosChunk 2 2)
      = .panic "ChunkRenderer not found" :=
  rfl

/-- Claim C3, amended: for every registry state and chunk whose position has
no renderer entry, `update_chunk` panics with "ChunkRenderer not found"
(aborting) instead of returning a recoverable failure to the caller. -/
theorem update_chunk_missing_entry_panics {L H : Nat} (s : ChunksRenderer)
    (c : PosChunk L H) (h : s.renderers c.pos = none) :
    s.update_chunk c = .panic "ChunkRenderer not found" := by
  unfold ChunksRenderer.update_chunk
  rw [h]

/-- Witness for `update_chunk_missing_entry_panics` at a fresh registry and
a 3×3×3 chunk at position (1, 0). -/
theorem update_chunk_missing_entry_panics_witness :
    ChunksRenderer.new.renderers (⟨⟨1, 0⟩, Chunk.new⟩ : PosChunk 3 3).pos = none
    ∧ ChunksRenderer.new.update_chunk (⟨⟨1, 0⟩, Chunk.new⟩ : PosChunk 3 3)
        = .panic "ChunkRenderer not found" :=
  ⟨rfl, update_chunk_missing_entry_panics ChunksRenderer.new _ rfl⟩

/-! ### Claim C9: place_block out-of-range handling -/

/-- Claim C9: `place_block` fails exactly when the position is out of range
(`x ≥ L`, `y ≥ H` or `z ≥ L`); on failure the chunk is unchanged; on success
the cell at `pos` holds the new block and every other cell is unchanged. -/
theorem place_block_spec {L H : Nat} (c : Chunk L H) (p : BlockPos) (b : Block) :
    ((c.place_block p b).1 = none ↔ (L ≤ p.x ∨ H ≤ p.y ∨ L ≤ p.z))
    ∧ ((c.place_block p b).1 = none → (c.place_block p b).2 = c)
    ∧ ((c.place_block p b).1 = some () →
        (c.place_block p b).2.deref p = b
        ∧ ∀ q, q ≠ p → (c.place_block p b).2.deref q = c.deref q) := by
  by_cases h : inBounds L H p
  · have h1 : (c.place_block p b).1 = some () := by
      simp [Chunk.place_block, h]
    have h2 : (c.place_block p b).2.blocks
        = fun y z x => if y = p.y ∧ z = p.z ∧ x = p.x then b
            else c.blocks y z x := by
      simp [Chunk.place_block, h]
    obtain ⟨hy, hz, hx⟩ := h
    refine ⟨⟨?_, ?_⟩, ?_, fun _ => ⟨?_, fun q hq => ?_⟩⟩
    · intro hc; rw [h1] at hc; cases hc
    · intro hc; exfalso; omega
    · intro hc; rw [h1] at hc; cases hc
    · simp [Chunk.deref, h2]
    · have hne : ¬ (q.y = p.y ∧ q.z = p.z ∧ q.x = p.x) := by
        intro hcond
        apply hq
        obtain ⟨qx, qy, qz⟩ := q
        obtain ⟨px, py, pz⟩ := p
        simp_all
      simp only [Chunk.deref, h2]
      rw [if_neg hne]
  · have h1 : (c.place_block p b).1 = none := by
      simp [Chunk.place_block, h]
    have h2 : (c.place_block p b).2 = c := by
      simp [Chunk.place_block, h]
    unfold inBounds at h
    refine ⟨⟨fun _ => by omega, fun _ => h1⟩, fun _ => h2, fun hc => ?_⟩
    rw [h1] at hc; cases hc

/-- Witness for `place_block_spec`: placing at x = 5 in a 2×2×2 chunk fails. -/
theorem place_block_spec_witness :
    ((Chunk.new : Chunk 2 2).place_block ⟨5, 0, 0⟩ Block.Dirt).1 = none :=
  (place_block_spec Chunk.new ⟨5, 0, 0⟩ Block.Dirt).1.mpr (Or.inl (by decide))

/-! ### Claims C7 and C8: neighbor symmetry and boundary absence -/

/-- Claim C7: for adjacent in-bounds positions `p` and `q = p + Δface`,
`neighbor_of p face` is the block stored at `q`, and
`neighbor_of q face.opposite` is the block stored at `p`. -/
theorem neighbor_of_symm {L H : Nat} (c : Chunk L H) (p q : BlockPos)
    (f : Face) (hp : inBounds L H p) (hq : inBounds L H q)
    (hadj : adjacent p q f) :
    c.neighbor_of p f = some (c.deref q)
    ∧ c.neighbor_of q f.opposite = some (c.deref p) := by
  obtain ⟨px, py, pz⟩ := p
  obtain ⟨qx, qy, qz⟩ := q
  cases f <;>
    · obtain ⟨h1, h2, h3⟩ := hadj
      dsimp only at h1 h2 h3 hp hq ⊢
      subst h1; subst h2; subst h3
      refine ⟨?_, ?_⟩ <;>
        simp [Chunk.neighbor_of, Chunk.neighbor, Face.opposite, checkedSub,
          Chunk.index_block, hp, hq, Nat.add_sub_cancel]

/-- Witness for `neighbor_of_symm` on the test chunk: (0,0,1) and (0,0,0)
are adjacent along `Front` (`z-1`). -/
theorem neighbor_of_symm_witness :
    (inBounds 2 2 ⟨0, 0, 1⟩ ∧ inBounds 2 2 ⟨0, 0, 0⟩
      ∧ adjacent ⟨0, 0, 1⟩ ⟨0, 0, 0⟩ .Front)
    ∧ (testChunk.neighbor_of ⟨0, 0, 1⟩ .Front
          = some (testChunk.deref ⟨0, 0, 0⟩)
        ∧ testChunk.neighbor_of ⟨0, 0, 0⟩ (Face.opposite .Front)
          = some (testChunk.deref ⟨0, 0, 1⟩)) :=
  ⟨⟨by decide, by decide, by decide⟩,
   neighbor_of_symm testChunk ⟨0, 0, 1⟩ ⟨0, 0, 0⟩ .Front
     (by decide) (by decide) (by decide)⟩

/-- Claim C8: for every in-bounds position, `neighbor_of` returns `none`
exactly when the shifted coordinate underflows or reaches the chunk bound;
in that case the result is distinct from `some b` for every block `b`
(in particular from `some Air`): absence is a separate query outcome. -/
theorem neighbor_of_boundary_absent {L H : Nat} (c : Chunk L H)
    (p : BlockPos) (f : Face) (hp : inBounds L H p) :
    (c.neighbor_of p f = none ↔ outward_absent L H p f)
    ∧ (outward_absent L H p f → ∀ b : Block, c.neighbor_of p f ≠ some b) := by
  obtain ⟨px, py, pz⟩ := p
  obtain ⟨hy, hz, hx⟩ := hp
  dsimp only at hy hz hx
  have hiff : c.neighbor_of ⟨px, py, pz⟩ f = none
      ↔ outward_absent L H ⟨px, py, pz⟩ f := by
    cases f with
    | Front =>
        by_cases h0 : pz = 0
        · subst h0
          simp [Chunk.neighbor_of, Chunk.neighbor, checkedSub, outward_absent]
        · have hcs : checkedSub pz 1 = some (pz - 1) := by
            unfold checkedSub; rw [if_neg (by omega)]
          have hib : inBounds L H ⟨px, py, pz - 1⟩ := by
            show py < H ∧ pz - 1 < L ∧ px < L
            omega
          simp [Chunk.neighbor_of, Chunk.neighbor, hcs, Chunk.index_block,
            hib, outward_absent, h0]
    | Back =>
        by_cases hb : pz + 1 < L
        · have hib : inBounds L H ⟨px, py, pz + 1⟩ := by
            show py < H ∧ pz + 1 < L ∧ px < L
            omega
          simp [Chunk.neighbor_of, Chunk.neighbor, Chunk.index_block, hib,
            outward_absent]
          omega
        · have hib : ¬ inBounds L H ⟨px, py, pz + 1⟩ := by
            show ¬ (py < H ∧ pz + 1 < L ∧ px < L)
            omega
          simp [Chunk.neighbor_of, Chunk.neighbor, Chunk.index_block, hib,
            outward_absent]
          omega
    | Right =>
        by_cases hb : px + 1 < L
        · have hib : inBounds L H ⟨px + 1, py, pz⟩ := by
            show py < H ∧ pz < L ∧ px + 1 < L
            omega
          simp [Chunk.neighbor_of, Chunk.neighbor, Chunk.index_block, hib,
            outward_absent]
          omega
        · have hib : ¬ inBounds L H ⟨px + 1, py, pz⟩ := by
            show ¬ (py < H ∧ pz < L ∧ px + 1 < L)
            omega
          simp [Chunk.neighbor_of, Chunk.neighbor, Chunk.index_block, hib,
            outward_absent]
          omega
    | Left =>
        by_cases h0 : px = 0
        · subst h0
          simp [Chunk.neighbor_of, Chunk.neighbor, checkedSub, outward_absent]
        · have hcs : checkedSub px 1 = some (px - 1) := by
            unfold checkedSub; rw [if_neg (by omega)]
          have hib : inBounds L H ⟨px - 1, py, pz⟩ := by
            show py < H ∧ pz < L ∧ px - 1 < L
            omega
          simp [Chunk.neighbor_of, Chunk.neighbor, hcs, Chunk.index_block,
            hib, outward_absent, h0]
    | Up =>
        by_cases hb : py + 1 < H
        · have hib : inBounds L H ⟨px, py + 1, pz⟩ := by
            show py + 1 < H ∧ pz < L ∧ px < L
            omega
          simp [Chunk.neighbor_of, Chunk.neighbor, Chunk.index_block, hib,
            outward_absent]
          omega
        · have hib : ¬ inBounds L H ⟨px, py + 1, pz⟩ := by
            show ¬ (py + 1 < H ∧ pz < L ∧ px < L)
            omega
          simp [Chunk.neighbor_of, Chunk.neighbor, Chunk.index_block, hib,
            outward_absent]
          omega
    | Down =>
        by_cases h0 : py = 0
        · subst h0
          simp [Chunk.neighbor_of, Chunk.neighbor, checkedSub, outward_absent]
        · have hcs : checkedSub py 1 = some (py - 1) := by
            unfold checkedSub; rw [if_neg (by omega)]
          have hib : inBounds L H ⟨px, py - 1, pz⟩ := by
            show py - 1 < H ∧ pz < L ∧ px < L
            omega
          simp [Chunk.neighbor_of, Chunk.neighbor, hcs, Chunk.index_block,
            hib, outward_absent, h0]
  refine ⟨hiff, fun h b hb => ?_⟩
  rw [hiff.mpr h] at hb
  cases hb

/-- Witness for `neighbor_of_boundary_absent` at the front edge cell (1,0,0)
of the test chunk. -/
theorem neighbor_of_boundary_absent_witness :
    inBounds 2 2 ⟨1, 0, 0⟩
    ∧ ((testChunk.neighbor_of ⟨1, 0, 0⟩ .Front = none
          ↔ outward_absent 2 2 ⟨1, 0, 0⟩ .Front)
        ∧ (outward_absent 2 2 ⟨1, 0, 0⟩ .Front →
            ∀ b : Block, testChunk.neighbor_of ⟨1, 0, 0⟩ .Front ≠ some b)) :=
  ⟨by decide, neighbor_of_boundary_absent testChunk ⟨1, 0, 0⟩ .Front (by decide)⟩

/-! ### Claims C5 and C4: the mesher's output -/

lemma add_face_eq {L H : Nat} (c : Chunk L H) (p : BlockPos) (m : VoxelMesh)
    (f : Face) :
    add_face c p m f
      = if visible c p f then ⟨m.faces ++ [f], m.positions ++ [p]⟩ else m := by
  unfold add_face visible
  cases hn : c.neighbor p f with
  | none => simp
  | some q => by_cases ha : c.deref q = Block.Air <;> simp [ha]

lemma foldl_add_face {L H : Nat} (c : Chunk L H) (p : BlockPos)
    (fl : List Face) :
    ∀ m : VoxelMesh,
      fl.foldl (add_face c p) m
        = ⟨m.faces ++ fl.filter fun f => visible c p f,
           m.positions ++ ((fl.filter fun f => visible c p f).map fun _ => p)⟩ := by
  induction fl with
  | nil => intro m; simp
  | cons f t ih =>
      intro m
      rw [List.foldl_cons, ih, add_face_eq]
      by_cases hv : visible c p f <;>
        simp [hv, List.filter_cons]

/-- The mesher's imperative accumulation loop, described as the list
comprehension `faceEntries`, split into its parallel components. -/
lemma serialize_chunk_eq {L H : Nat} (m : VoxelMesh) (c : Chunk L H) :
    m.serialize_chunk c
      = ⟨(faceEntries c).map Prod.fst, (faceEntries c).map Prod.snd⟩ := by
  unfold VoxelMesh.serialize_chunk faceEntries
  have main : ∀ (ps : List BlockPos) (m0 : VoxelMesh),
      ps.foldl
          (fun m p => if c.deref p = Block.Air then m
            else faceOrder.foldl (add_face c p) m) m0
        = ⟨m0.faces ++ (ps.flatMap (cellEntries c)).map Prod.fst,
           m0.positions ++ (ps.flatMap (cellEntries c)).map Prod.snd⟩ := by
    intro ps
    induction ps with
    | nil => intro m0; simp
    | cons p t ih =>
        intro m0
        rw [List.foldl_cons]
        by_cases ha : c.deref p = Block.Air
        · rw [if_pos ha, ih]
          simp [cellEntries, ha]
        · rw [if_neg ha, foldl_add_face, ih]
          simp [cellEntries, ha, List.map_map, Function.comp_def,
            List.map_const']
  simpa using main (chunkPositions L H) VoxelMesh.new

/-- Claim C5: `serialize_chunk` produces, for each non-`Air` cell in
iteration order and each of its 6 faces in enumeration order, one
`(face, position)` entry exactly when the neighbor is absent or `Air`
(the `faceEntries` comprehension), `Air` cells contributing nothing; and
the output is rebuilt in full on every call, independent of the previous
`VoxelMesh` contents. -/
theorem serialize_chunk_spec {L H : Nat} (m m' : VoxelMesh) (c : Chunk L H) :
    m.serialize_chunk c
      = ⟨(faceEntries c).map Prod.fst, (faceEntries c).map Prod.snd⟩
    ∧ m.serialize_chunk c = m'.serialize_chunk c :=
  ⟨serialize_chunk_eq m c, rfl⟩

lemma mem_chunkPositions {L H : Nat} {p : BlockPos} :
    p ∈ chunkPositions L H ↔ inBounds L H p := by
  obtain ⟨px, py, pz⟩ := p
  unfold chunkPositions inBounds
  simp only [List.mem_flatMap, List.mem_map, List.mem_range]
  constructor
  · rintro ⟨y, hy, z, hz, x, hx, he⟩
    cases he
    exact ⟨hy, hz, hx⟩
  · rintro ⟨hy, hz, hx⟩
    exact ⟨py, hy, pz, hz, px, hx, rfl⟩

lemma chunkPositions_nodup (L H : Nat) : (chunkPositions L H).Nodup := by
  unfold chunkPositions
  rw [List.nodup_flatMap]
  refine ⟨fun y _ => ?_, ?_⟩
  · rw [List.nodup_flatMap]
    refine ⟨fun z _ => ?_, ?_⟩
    · exact (List.nodup_range L).map fun a b he => by
        simpa [BlockPos.mk.injEq] using he
    · exact (List.nodup_range L).imp fun hne => by
        intro a ha hb
        simp only [List.mem_map, List.mem_range] at ha hb
        obtain ⟨x1, _, rfl⟩ := ha
        obtain ⟨x2, _, he⟩ := hb
        simp only [BlockPos.mk.injEq] at he
        exact hne he.2.2.symm
  · exact (List.nodup_range H).imp fun hne => by
      intro a ha hb
      simp only [List.mem_flatMap, List.mem_map, List.mem_range] at ha hb
      obtain ⟨z1, _, x1, _, rfl⟩ := ha
      obtain ⟨z2, _, x2, _, he⟩ := hb
      simp only [BlockPos.mk.injEq] at he
      exact hne he.2.1.symm

lemma flatMap_eq_single {α β : Type} {l : List α} {a : α} (f : α → List β)
    (hn : l.Nodup) (ha : a ∈ l) (h0 : ∀ b ∈ l, b ≠ a → f b = []) :
    l.flatMap f = f a := by
  induction l with
  | nil => cases ha
  | cons b t ih =>
      rw [List.flatMap_cons]
      rcases List.mem_cons.mp ha with rfl | hat
      · have ht : t.flatMap f = [] := by
          rw [List.flatMap_eq_nil_iff]
          intro x hx
          exact h0 x (List.mem_cons_of_mem _ hx)
            fun he => (List.nodup_cons.mp hn).1 (he ▸ hx)
        rw [ht, List.append_nil]
      · have hb : b ≠ a := fun he => (List.nodup_cons.mp hn).1 (he ▸ hat)
        rw [h0 b (List.mem_cons_self _ _) hb, List.nil_append]
        exact ih (List.nodup_cons.mp hn).2 hat
          fun x hx => h0 x (List.mem_cons_of_mem _ hx)

/-- A `some` result of `BlockRef::neighbor` is an in-bounds position distinct
from the queried one. -/
lemma neighbor_some {L H : Nat} {c : Chunk L H} {p q : BlockPos} {f : Face}
    (h : c.neighbor p f = some q) : inBounds L H q ∧ q ≠ p := by
  obtain ⟨px, py, pz⟩ := p
  have main : ∀ r : BlockPos, c.index_block r = some q → inBounds L H q ∧ q = r := by
    intro r hr
    unfold Chunk.index_block at hr
    split_ifs at hr with hib
    injection hr with hr
    subst hr
    exact ⟨hib, rfl⟩
  cases f with
  | Front =>
      unfold Chunk.neighbor checkedSub at h
      by_cases h1 : pz < 1
      · simp [h1] at h
      · rw [if_neg h1, Option.some_bind] at h
        obtain ⟨hib, rfl⟩ := main _ h
        refine ⟨hib, fun he => ?_⟩
        simp only [BlockPos.mk.injEq] at he
        omega
  | Back =>
      unfold Chunk.neighbor at h
      obtain ⟨hib, rfl⟩ := main _ h
      refine ⟨hib, fun he => ?_⟩
      simp only [BlockPos.mk.injEq] at he
      omega
  | Right =>
      unfold Chunk.neighbor at h
      obtain ⟨hib, rfl⟩ := main _ h
      refine ⟨hib, fun he => ?_⟩
      simp only [BlockPos.mk.injEq] at he
      omega
  | Left =>
      unfold Chunk.neighbor checkedSub at h
      by_cases h1 : px < 1
      · simp [h1] at h
      · rw [if_neg h1, Option.some_bind] at h
        obtain ⟨hib, rfl⟩ := main _ h
        refine ⟨hib, fun he => ?_⟩
        simp only [BlockPos.mk.injEq] at he
        omega
  | Up =>
      unfold Chunk.neighbor at h
      obtain ⟨hib, rfl⟩ := main _ h
      refine ⟨hib, fun he => ?_⟩
      simp only [BlockPos.mk.injEq] at he
      omega
  | Down =>
      unfold Chunk.neighbor checkedSub at h
      by_cases h1 : py < 1
      · simp [h1] at h
      · rw [if_neg h1, Option.some_bind] at h
        obtain ⟨hib, rfl⟩ := main _ h
        refine ⟨hib, fun he => ?_⟩
        simp only [BlockPos.mk.injEq] at he
        omega

/-- Claim C4: for a chunk whose only non-`Air` cell is at the in-bounds
position `p`, `serialize_chunk` emits exactly the six faces, each once, in
enumeration order, all paired with `p`. -/
theorem single_block_six_faces {L H : Nat} (c : Chunk L H) (p : BlockPos)
    (m : VoxelMesh) (hp : inBounds L H p) (hs : c.deref p ≠ Block.Air)
    (ha : ∀ q ∈ chunkPositions L H, q ≠ p → c.deref q = Block.Air) :
    m.serialize_chunk c
      = ⟨[.Front, .Back, .Up, .Down, .Left, .Right], [p, p, p, p, p, p]⟩ := by
  have hvis : ∀ f : Face, visible c p f = true := by
    intro f
    unfold visible
    cases hn : c.neighbor p f with
    | none => rfl
    | some q =>
        obtain ⟨hib, hne⟩ := neighbor_some hn
        simp [ha q (mem_chunkPositions.mpr hib) hne]
  have hcell : faceEntries c = cellEntries c p :=
    flatMap_eq_single (cellEntries c) (chunkPositions_nodup L H)
      (mem_chunkPositions.mpr hp)
      (fun q _ hq => by simp [cellEntries, ha q (by assumption) hq])
  have hfil : (faceOrder.filter fun f => visible c p f) = faceOrder :=
    List.filter_eq_self.mpr fun f _ => hvis f
  rw [serialize_chunk_eq, hcell]
  unfold cellEntries
  rw [if_neg hs, hfil]
  rfl

/-- Witness for `single_block_six_faces`: the 2×2×2 chunk with a single
`Dirt` block at the origin (the spec's §8 concrete scenario). -/
theorem single_block_six_faces_witness :
    (inBounds 2 2 ⟨0, 0, 0⟩
      ∧ ((Chunk.new : Chunk 2 2).placed ⟨0, 0, 0⟩ Block.Dirt).deref ⟨0, 0, 0⟩
          ≠ Block.Air
      ∧ ∀ q ∈ chunkPositions 2 2, q ≠ ⟨0, 0, 0⟩ →
          ((Chunk.new : Chunk 2 2).placed ⟨0, 0, 0⟩ Block.Dirt).deref q
            = Block.Air)
    ∧ VoxelMesh.new.serialize_chunk
          ((Chunk.new : Chunk 2 2).placed ⟨0, 0, 0⟩ Block.Dirt)
        = ⟨[.Front, .Back, .Up, .Down, .Left, .Right],
           [⟨0, 0, 0⟩, ⟨0, 0, 0⟩, ⟨0, 0, 0⟩, ⟨0, 0, 0⟩, ⟨0, 0, 0⟩, ⟨0, 0, 0⟩]⟩ :=
  ⟨⟨by decide, by decide, by decide⟩,
   single_block_six_faces _ _ VoxelMesh.new (by decide) (by decide) (by decide)⟩

/-! ### Claim C6: MeshBuilder counts and index bounds -/

lemma face_mesh_indices (f : Face) : f.mesh.indices = [0, 1, 2, 0, 3, 1] := by
  cases f <;> rfl

lemma face_mesh_vertices_length (f : Face) : f.mesh.vertices.length = 4 := by
  cases f <;> rfl

/-- One `push` of a face geometry, written out: four translated vertices are
appended, the six offset indices are appended, and `curr_idx` grows by
`max_idx + 1 = 4` (mod 2^16). -/
lemma push_face_eq (b : MeshBuilder) (f : Face) (p : BlockPos) :
    b.push f.mesh p
      = ⟨b.vertices ++ f.mesh.vertices.map fun v => v.translate p,
         b.indices ++ [(b.curr_idx + 0) % 65536, (b.curr_idx + 1) % 65536,
           (b.curr_idx + 2) % 65536, (b.curr_idx + 0) % 65536,
           (b.curr_idx + 3) % 65536, (b.curr_idx + 1) % 65536],
         (b.curr_idx + 3 + 1) % 65536⟩ := by
  cases f <;> rfl

/-- Builder invariant after `k` face pushes: `curr_idx` is `4k` mod 2^16
(`65536 = 4·16384`), there are `4k` vertices and `6k` indices, and every
index is below `4k`. -/
lemma pushAllFrom_inv (l : List (Face × BlockPos)) :
    ∀ (b : MeshBuilder) (k : Nat),
      b.curr_idx = 4 * (k % 16384) →
      b.vertices.length = 4 * k →
      b.indices.length = 6 * k →
      (∀ i ∈ b.indices, i < 4 * k) →
      (pushAllFrom b l).curr_idx = 4 * ((k + l.length) % 16384)
      ∧ (pushAllFrom b l).vertices.length = 4 * (k + l.length)
      ∧ (pushAllFrom b l).indices.length = 6 * (k + l.length)
      ∧ ∀ i ∈ (pushAllFrom b l).indices, i < 4 * (k + l.length) := by
  induction l with
  | nil =>
      intro b k h1 h2 h3 h4
      exact ⟨h1, h2, h3, h4⟩
  | cons fp t ih =>
      intro b k h1 h2 h3 h4
      have hstep := push_face_eq b fp.1 fp.2
      have hc : (b.push fp.1.mesh fp.2).curr_idx = 4 * ((k + 1) % 16384) := by
        rw [hstep]
        dsimp only
        omega
      have hv : (b.push fp.1.mesh fp.2).vertices.length = 4 * (k + 1) := by
        rw [hstep]
        dsimp only
        rw [List.length_append, List.length_map, face_mesh_vertices_length, h2]
        omega
      have hi : (b.push fp.1.mesh fp.2).indices.length = 6 * (k + 1) := by
        rw [hstep]
        dsimp only
        rw [List.length_append, h3]
        rfl
      have hbound : ∀ i ∈ (b.push fp.1.mesh fp.2).indices, i < 4 * (k + 1) := by
        rw [hstep]
        intro i hmem
        dsimp only at hmem
        rw [List.mem_append] at hmem
        rcases hmem with hmem | hmem
        · exact lt_of_lt_of_le (h4 i hmem) (by omega)
        · simp only [List.mem_cons, List.not_mem_nil, or_false] at hmem
          rcases hmem with rfl | rfl | rfl | rfl | rfl | rfl <;> omega
      have hfold : pushAllFrom b (fp :: t)
          = pushAllFrom (b.push fp.1.mesh fp.2) t := rfl
      rw [hfold, List.length_cons,
        show k + (t.length + 1) = (k + 1) + t.length by omega]
      exact ih _ _ hc hv hi hbound

/-- Claim C6: after any sequence of `N` face pushes into a fresh
`MeshBuilder`, the built `Mesh` has exactly `4N` vertices and `6N` indices,
and every index is strictly below `4N`. -/
theorem mesh_builder_counts (l : List (Face × BlockPos)) :
    (pushAll l).build.vertices.length = 4 * l.length
    ∧ (pushAll l).build.indices.length = 6 * l.length
    ∧ ∀ i ∈ (pushAll l).build.indices, i < 4 * l.length := by
  have h := pushAllFrom_inv l MeshBuilder.new 0 rfl rfl rfl
    (by intro i hmem; cases hmem)
  refine ⟨?_, ?_, ?_⟩
  · have := h.2.1
    simpa [pushAll, MeshBuilder.build] using this
  · have := h.2.2.1
    simpa [pushAll, MeshBuilder.build] using this
  · have := h.2.2.2
    simpa [pushAll, MeshBuilder.build] using this

/-- Witness for `mesh_builder_counts`: a single `Front` face push. -/
theorem mesh_builder_counts_witness :
    (pushAll [(Face.Front, (⟨0, 0, 0⟩ : BlockPos))]).build.vertices.length
        = 4 * [(Face.Front, (⟨0, 0, 0⟩ : BlockPos))].length
    ∧ (pushAll [(Face.Front, (⟨0, 0, 0⟩ : BlockPos))]).build.indices.length
        = 6 * [(Face.Front, (⟨0, 0, 0⟩ : BlockPos))].length
    ∧ ∀ i ∈ (pushAll [(Face.Front, (⟨0, 0, 0⟩ : BlockPos))]).build.indices,
        i < 4 * [(Face.Front, (⟨0, 0, 0⟩ : BlockPos))].length :=
  mesh_builder_counts [(Face.Front, (⟨0, 0, 0⟩ : BlockPos))]

/-! ### Claim C10: face-count bound for a 16×16×16 chunk, u16 safety -/

/-- Number of run-starts in a boolean column: position `i` counts when the
value is true and the previous value (the first argument at the head) was
false. -/
def visCount : Bool → List Bool → Nat
  | _, [] => 0
  | prev, a :: t => (if a = true ∧ prev = false then 1 else 0) + visCount a t

lemma visCount_le (l : List Bool) :
    ∀ prev : Bool,
      2 * visCount prev l ≤ l.length + (if prev = false then 1 else 0) := by
  induction l with
  | nil => intro prev; simp [visCount]
  | cons a t ih =>
      intro prev
      have h := ih a
      cases a <;> cases prev <;>
        · simp_all [visCount]
          try omega

/-- The last element of a boolean column, with a default for the empty one. -/
def lastD : Bool → List Bool → Bool
  | prev, [] => prev
  | _, a :: t => lastD a t

lemma lastD_append_singleton (l : List Bool) (a : Bool) :
    ∀ prev, lastD prev (l ++ [a]) = a := by
  induction l with
  | nil => intro prev; rfl
  | cons b t ih => intro prev; simpa [lastD] using ih b

lemma visCount_append (l : List Bool) (a : Bool) :
    ∀ prev, visCount prev (l ++ [a])
      = visCount prev l + (if a = true ∧ lastD prev l = false then 1 else 0) := by
  induction l with
  | nil => intro prev; simp [visCount, lastD]
  | cons b t ih =>
      intro prev
      simp only [List.cons_append, visCount, lastD, List.append_eq]
      rw [ih b]
      omega

lemma lastD_range_map (s : Nat → Bool) (n : Nat) :
    lastD false ((List.range n).map s)
      = if n = 0 then false else s (n - 1) := by
  cases n with
  | zero => rfl
  | succ m =>
      rw [List.range_succ, List.map_append]
      simp [lastD_append_singleton]

lemma sum_ind_eq_visCount (s : Nat → Bool) (n : Nat) :
    (∑ z in Finset.range n,
      if s z = true ∧ (z = 0 ∨ s (z - 1) = false) then 1 else 0)
    = visCount false ((List.range n).map s) := by
  induction n with
  | zero => rfl
  | succ m ih =>
      rw [Finset.sum_range_succ, ih, List.range_succ, List.map_append,
        List.map_singleton, visCount_append, lastD_range_map]
      by_cases h0 : m = 0
      · subst h0
        cases hs : s 0 <;> simp [hs]
      · cases hs : s m <;> cases hsp : s (m - 1) <;> simp [h0, hs, hsp]

/-- At most `(n+1)/2` of the `n` cells of a column can be "solid with a
non-solid (or absent) predecessor". -/
lemma col_bound (s : Nat → Bool) (n : Nat) :
    (∑ z in Finset.range n,
      if s z = true ∧ (z = 0 ∨ s (z - 1) = false) then 1 else 0)
    ≤ (n + 1) / 2 := by
  rw [sum_ind_eq_visCount]
  have h := visCount_le ((List.range n).map s) false
  simp at h
  omega

/-- The reversed-direction version of `col_bound`: "solid with a non-solid
(or absent) successor". -/
lemma col_bound_rev (s : Nat → Bool) (n : Nat) :
    (∑ z in Finset.range n,
      if s z = true ∧ (n ≤ z + 1 ∨ s (z + 1) = false) then 1 else 0)
    ≤ (n + 1) / 2 := by
  have hre := Finset.sum_range_reflect
    (fun z => if s z = true ∧ (n ≤ z + 1 ∨ s (z + 1) = false) then 1 else 0) n
  rw [← hre]
  have hcong : ∀ j ∈ Finset.range n,
      (if s (n - 1 - j) = true
          ∧ (n ≤ (n - 1 - j) + 1 ∨ s ((n - 1 - j) + 1) = false)
        then 1 else 0)
      = (if s (n - 1 - j) = true
            ∧ (j = 0 ∨ s (n - 1 - (j - 1)) = false)
          then 1 else 0) := by
    intro j hj
    rw [Finset.mem_range] at hj
    by_cases hj0 : j = 0
    · subst hj0
      have h1 : n ≤ n - 1 + 1 := by omega
      simp [h1]
    · have h2 : (n - 1 - j) + 1 = n - 1 - (j - 1) := by omega
      have h1 : ¬ (n ≤ n - 1 - (j - 1)) := by omega
      rw [h2]
      simp [h1, hj0]
  calc (∑ j in Finset.range n,
          if s (n - 1 - j) = true
              ∧ (n ≤ (n - 1 - j) + 1 ∨ s ((n - 1 - j) + 1) = false)
            then 1 else 0)
      = ∑ j in Finset.range n,
          (if s (n - 1 - j) = true ∧ (j = 0 ∨ s (n - 1 - (j - 1)) = false)
            then 1 else 0) := Finset.sum_congr rfl hcong
    _ ≤ (n + 1) / 2 := col_bound (fun t => s (n - 1 - t)) n

/-- The contribution (0 or 1) of one `(cell, face)` pair to the mesher
output. -/
def entryCount {L H : Nat} (c : Chunk L H) (p : BlockPos) (f : Face) : Nat :=
  if c.deref p ≠ Block.Air ∧ visible c p f = true then 1 else 0

lemma length_filter_eq_sum {α : Type} (pb : α → Bool) (l : List α) :
    (l.filter pb).length = (l.map fun a => if pb a then 1 else 0).sum := by
  induction l with
  | nil => rfl
  | cons a t ih =>
      by_cases h : pb a
      · simp [List.filter_cons, h, ih]
        omega
      · simp [List.filter_cons, h, ih]

lemma cellEntries_length {L H : Nat} (c : Chunk L H) (p : BlockPos) :
    (cellEntries c p).length = (faceOrder.map (entryCount c p)).sum := by
  unfold cellEntries entryCount
  by_cases ha : c.deref p = Block.Air
  · simp [ha, faceOrder]
  · rw [if_neg ha, List.length_map, length_filter_eq_sum]
    congr 1
    apply List.map_congr_left
    intro f _
    simp [ha]

lemma list_range_map_sum (f : Nat → Nat) (n : Nat) :
    ((List.range n).map f).sum = ∑ i in Finset.range n, f i := by
  induction n with
  | zero => rfl
  | succ m ih =>
      rw [List.range_succ, List.map_append, List.sum_append,
        Finset.sum_range_succ, ih]
      simp

lemma list_sum_flatMap {α : Type} (l : List α) (f : α → List Nat) :
    (l.flatMap f).sum = (l.map fun a => (f a).sum).sum := by
  induction l with
  | nil => rfl
  | cons a t ih => simp [List.flatMap_cons, ih]

lemma chunkPositions_map_sum (L H : Nat) (g : BlockPos → Nat) :
    ((chunkPositions L H).map g).sum
      = ∑ y in Finset.range H, ∑ z in Finset.range L, ∑ x in Finset.range L,
          g ⟨x, y, z⟩ := by
  unfold chunkPositions
  rw [List.map_flatMap, list_sum_flatMap, list_range_map_sum]
  apply Finset.sum_congr rfl
  intro y _
  rw [List.map_flatMap, list_sum_flatMap, list_range_map_sum]
  apply Finset.sum_congr rfl
  intro z _
  rw [List.map_map, list_range_map_sum]
  rfl

lemma faceEntries_length_sum {L H : Nat} (c : Chunk L H) :
    (faceEntries c).length
      = ∑ y in Finset.range H, ∑ z in Finset.range L, ∑ x in Finset.range L,
          (faceOrder.map (entryCount c ⟨x, y, z⟩)).sum := by
  unfold faceEntries
  rw [List.length_flatMap]
  rw [show List.map (List.length ∘ cellEntries c) (chunkPositions L H)
        = List.map (fun a => (faceOrder.map (entryCount c a)).sum)
            (chunkPositions L H)
      from List.map_congr_left fun a _ => cellEntries_length c a]
  rw [chunkPositions_map_sum]

lemma front_col (c : Chunk 16 16) (x y : Nat) (hx : x < 16) (hy : y < 16) :
    (∑ z in Finset.range 16, entryCount c ⟨x, y, z⟩ Face.Front) ≤ 8 := by
  have hcong : ∀ z ∈ Finset.range 16,
      entryCount c ⟨x, y, z⟩ Face.Front
        = if decide (c.deref ⟨x, y, z⟩ ≠ Block.Air) = true
            ∧ (z = 0 ∨ decide (c.deref ⟨x, y, z - 1⟩ ≠ Block.Air) = false)
          then 1 else 0 := by
    intro z hz
    rw [Finset.mem_range] at hz
    unfold entryCount visible Chunk.neighbor checkedSub
    by_cases h0 : z = 0
    · subst h0
      by_cases hA : c.deref ⟨x, y, 0⟩ = Block.Air <;> simp [hA]
    · have hcs : ¬ (z < 1) := by omega
      have hib : inBounds 16 16 ⟨x, y, z - 1⟩ := by
        show y < 16 ∧ z - 1 < 16 ∧ x < 16
        omega
      rw [if_neg hcs]
      simp only [Option.some_bind, Chunk.index_block]
      rw [if_pos hib]
      by_cases hA : c.deref ⟨x, y, z⟩ = Block.Air <;>
        by_cases hB : c.deref ⟨x, y, z - 1⟩ = Block.Air <;>
          simp [hA, hB, h0]
  rw [Finset.sum_congr rfl hcong]
  have h := col_bound (fun t => decide (c.deref ⟨x, y, t⟩ ≠ Block.Air)) 16
  simpa using h

lemma back_col (c : Chunk 16 16) (x y : Nat) (hx : x < 16) (hy : y < 16) :
    (∑ z in Finset.range 16, entryCount c ⟨x, y, z⟩ Face.Back) ≤ 8 := by
  have hcong : ∀ z ∈ Finset.range 16,
      entryCount c ⟨x, y, z⟩ Face.Back
        = if decide (c.deref ⟨x, y, z⟩ ≠ Block.Air) = true
            ∧ (16 ≤ z + 1 ∨ decide (c.deref ⟨x, y, z + 1⟩ ≠ Block.Air) = false)
          then 1 else 0 := by
    intro z hz
    rw [Finset.mem_range] at hz
    unfold entryCount visible Chunk.neighbor
    by_cases hb : z + 1 < 16
    · have hib : inBounds 16 16 ⟨x, y, z + 1⟩ := by
        show y < 16 ∧ z + 1 < 16 ∧ x < 16
        omega
      simp only [Chunk.index_block]
      rw [if_pos hib]
      have hle : ¬ (16 ≤ z + 1) := by omega
      by_cases hA : c.deref ⟨x, y, z⟩ = Block.Air <;>
        by_cases hB : c.deref ⟨x, y, z + 1⟩ = Block.Air <;>
          simp [hA, hB, hle]
    · have hib : ¬ inBounds 16 16 ⟨x, y, z + 1⟩ := by
        show ¬ (y < 16 ∧ z + 1 < 16 ∧ x < 16)
        omega
      simp only [Chunk.index_block]
      rw [if_neg hib]
      have hle : (16:Nat) ≤ z + 1 := by omega
      by_cases hA : c.deref ⟨x, y, z⟩ = Block.Air <;> simp [hA, hle]
  rw [Finset.sum_congr rfl hcong]
  have h := col_bound_rev (fun t => decide (c.deref ⟨x, y, t⟩ ≠ Block.Air)) 16
  simpa using h

lemma right_col (c : Chunk 16 16) (y z : Nat) (hy : y < 16) (hz : z < 16) :
    (∑ x in Finset.range 16, entryCount c ⟨x, y, z⟩ Face.Right) ≤ 8 := by
  have hcong : ∀ x ∈ Finset.range 16,
      entryCount c ⟨x, y, z⟩ Face.Right
        = if decide (c.deref ⟨x, y, z⟩ ≠ Block.Air) = true
            ∧ (16 ≤ x + 1 ∨ decide (c.deref ⟨x + 1, y, z⟩ ≠ Block.Air) = false)
          then 1 else 0 := by
    intro x hx
    rw [Finset.mem_range] at hx
    unfold entryCount visible Chunk.neighbor
    by_cases hb : x + 1 < 16
    · have hib : inBounds 16 16 ⟨x + 1, y, z⟩ := by
        show y < 16 ∧ z < 16 ∧ x + 1 < 16
        omega
      simp only [Chunk.index_block]
      rw [if_pos hib]
      have hle : ¬ (16 ≤ x + 1) := by omega
      by_cases hA : c.deref ⟨x, y, z⟩ = Block.Air <;>
        by_cases hB : c.deref ⟨x + 1, y, z⟩ = Block.Air <;>
          simp [hA, hB, hle]
    · have hib : ¬ inBounds 16 16 ⟨x + 1, y, z⟩ := by
        show ¬ (y < 16 ∧ z < 16 ∧ x + 1 < 16)
        omega
      simp only [Chunk.index_block]
      rw [if_neg hib]
      have hle : (16:Nat) ≤ x + 1 := by omega
      by_cases hA : c.deref ⟨x, y, z⟩ = Block.Air <;> simp [hA, hle]
  rw [Finset.sum_congr rfl hcong]
  have h := col_bound_rev (fun t => decide (c.deref ⟨t, y, z⟩ ≠ Block.Air)) 16
  simpa using h

lemma left_col (c : Chunk 16 16) (y z : Nat) (hy : y < 16) (hz : z < 16) :
    (∑ x in Finset.range 16, entryCount c ⟨x, y, z⟩ Face.Left) ≤ 8 := by
  have hcong : ∀ x ∈ Finset.range 16,
      entryCount c ⟨x, y, z⟩ Face.Left
        = if decide (c.deref ⟨x, y, z⟩ ≠ Block.Air) = true
            ∧ (x = 0 ∨ decide (c.deref ⟨x - 1, y, z⟩ ≠ Block.Air) = false)
          then 1 else 0 := by
    intro x hx
    rw [Finset.mem_range] at hx
    unfold entryCount visible Chunk.neighbor checkedSub
    by_cases h0 : x = 0
    · subst h0
      by_cases hA : c.deref ⟨0, y, z⟩ = Block.Air <;> simp [hA]
    · have hcs : ¬ (x < 1) := by omega
      have hib : inBounds 16 16 ⟨x - 1, y, z⟩ := by
        show y < 16 ∧ z < 16 ∧ x - 1 < 16
        omega
      rw [if_neg hcs]
      simp only [Option.some_bind, Chunk.index_block]
      rw [if_pos hib]
      by_cases hA : c.deref ⟨x, y, z⟩ = Block.Air <;>
        by_cases hB : c.deref ⟨x - 1, y, z⟩ = Block.Air <;>
          simp [hA, hB, h0]
  rw [Finset.sum_congr rfl hcong]
  have h := col_bound (fun t => decide (c.deref ⟨t, y, z⟩ ≠ Block.Air)) 16
  simpa using h

lemma up_col (c : Chunk 16 16) (x z : Nat) (hx : x < 16) (hz : z < 16) :
    (∑ y in Finset.range 16, entryCount c ⟨x, y, z⟩ Face.Up) ≤ 8 := by
  have hcong : ∀ y ∈ Finset.range 16,
      entryCount c ⟨x, y, z⟩ Face.Up
        = if decide (c.deref ⟨x, y, z⟩ ≠ Block.Air) = true
            ∧ (16 ≤ y + 1 ∨ decide (c.deref ⟨x, y + 1, z⟩ ≠ Block.Air) = false)
          then 1 else 0 := by
    intro y hy
    rw [Finset.mem_range] at hy
    unfold entryCount visible Chunk.neighbor
    by_cases hb : y + 1 < 16
    · have hib : inBounds 16 16 ⟨x, y + 1, z⟩ := by
        show y + 1 < 16 ∧ z < 16 ∧ x < 16
        omega
      simp only [Chunk.index_block]
      rw [if_pos hib]
      have hle : ¬ (16 ≤ y + 1) := by omega
      by_cases hA : c.deref ⟨x, y, z⟩ = Block.Air <;>
        by_cases hB : c.deref ⟨x, y + 1, z⟩ = Block.Air <;>
          simp [hA, hB, hle]
    · have hib : ¬ inBounds 16 16 ⟨x, y + 1, z⟩ := by
        show ¬ (y + 1 < 16 ∧ z < 16 ∧ x < 16)
        omega
      simp only [Chunk.index_block]
      rw [if_neg hib]
      have hle : (16:Nat) ≤ y + 1 := by omega
      by_cases hA : c.deref ⟨x, y, z⟩ = Block.Air <;> simp [hA, hle]
  rw [Finset.sum_congr rfl hcong]
  have h := col_bound_rev (fun t => decide (c.deref ⟨x, t, z⟩ ≠ Block.Air)) 16
  simpa using h

lemma down_col (c : Chunk 16 16) (x z : Nat) (hx : x < 16) (hz : z < 16) :
    (∑ y in Finset.range 16, entryCount c ⟨x, y, z⟩ Face.Down) ≤ 8 := by
  have hcong : ∀ y ∈ Finset.range 16,
      entryCount c ⟨x, y, z⟩ Face.Down
        = if decide (c.deref ⟨x, y, z⟩ ≠ Block.Air) = true
            ∧ (y = 0 ∨ decide (c.deref ⟨x, y - 1, z⟩ ≠ Block.Air) = false)
          then 1 else 0 := by
    intro y hy
    rw [Finset.mem_range] at hy
    unfold entryCount visible Chunk.neighbor checkedSub
    by_cases h0 : y = 0
    · subst h0
      by_cases hA : c.deref ⟨x, 0, z⟩ = Block.Air <;> simp [hA]
    · have hcs : ¬ (y < 1) := by omega
      have hib : inBounds 16 16 ⟨x, y - 1, z⟩ := by
        show y - 1 < 16 ∧ z < 16 ∧ x < 16
        omega
      rw [if_neg hcs]
      simp only [Option.some_bind, Chunk.index_block]
      rw [if_pos hib]
      by_cases hA : c.deref ⟨x, y, z⟩ = Block.Air <;>
        by_cases hB : c.deref ⟨x, y - 1, z⟩ = Block.Air <;>
          simp [hA, hB, h0]
  rw [Finset.sum_congr rfl hcong]
  have h := col_bound (fun t => decide (c.deref ⟨x, t, z⟩ ≠ Block.Air)) 16
  simpa using h

lemma dir_bound_front (c : Chunk 16 16) :
    (∑ y in Finset.range 16, ∑ z in Finset.range 16, ∑ x in Finset.range 16,
      entryCount c ⟨x, y, z⟩ Face.Front) ≤ 2048 := by
  calc (∑ y in Finset.range 16, ∑ z in Finset.range 16, ∑ x in Finset.range 16,
        entryCount c ⟨x, y, z⟩ Face.Front)
      = ∑ y in Finset.range 16, ∑ x in Finset.range 16, ∑ z in Finset.range 16,
          entryCount c ⟨x, y, z⟩ Face.Front :=
        Finset.sum_congr rfl fun _ _ => Finset.sum_comm
    _ ≤ ∑ _y in Finset.range 16, ∑ _x in Finset.range 16, 8 := by
        refine Finset.sum_le_sum fun y hy => Finset.sum_le_sum fun x hx => ?_
        exact front_col c x y (Finset.mem_range.mp hx) (Finset.mem_range.mp hy)
    _ = 2048 := by simp

lemma dir_bound_back (c : Chunk 16 16) :
    (∑ y in Finset.range 16, ∑ z in Finset.range 16, ∑ x in Finset.range 16,
      entryCount c ⟨x, y, z⟩ Face.Back) ≤ 2048 := by
  calc (∑ y in Finset.range 16, ∑ z in Finset.range 16, ∑ x in Finset.range 16,
        entryCount c ⟨x, y, z⟩ Face.Back)
      = ∑ y in Finset.range 16, ∑ x in Finset.range 16, ∑ z in Finset.range 16,
          entryCount c ⟨x, y, z⟩ Face.Back :=
        Finset.sum_congr rfl fun _ _ => Finset.sum_comm
    _ ≤ ∑ _y in Finset.range 16, ∑ _x in Finset.range 16, 8 := by
        refine Finset.sum_le_sum fun y hy => Finset.sum_le_sum fun x hx => ?_
        exact back_col c x y (Finset.mem_range.mp hx) (Finset.mem_range.mp hy)
    _ = 2048 := by simp

lemma dir_bound_right (c : Chunk 16 16) :
    (∑ y in Finset.range 16, ∑ z in Finset.range 16, ∑ x in Finset.range 16,
      entryCount c ⟨x, y, z⟩ Face.Right) ≤ 2048 := by
  calc (∑ y in Finset.range 16, ∑ z in Finset.range 16, ∑ x in Finset.range 16,
        entryCount c ⟨x, y, z⟩ Face.Right)
      ≤ ∑ _y in Finset.range 16, ∑ _z in Finset.range 16, 8 := by
        refine Finset.sum_le_sum fun y hy => Finset.sum_le_sum fun z hz => ?_
        exact right_col c y z (Finset.mem_range.mp hy) (Finset.mem_range.mp hz)
    _ = 2048 := by simp

lemma dir_bound_left (c : Chunk 16 16) :
    (∑ y in Finset.range 16, ∑ z in Finset.range 16, ∑ x in Finset.range 16,
      entryCount c ⟨x, y, z⟩ Face.Left) ≤ 2048 := by
  calc (∑ y in Finset.range 16, ∑ z in Finset.range 16, ∑ x in Finset.range 16,
        entryCount c ⟨x, y, z⟩ Face.Left)
      ≤ ∑ _y in Finset.range 16, ∑ _z in Finset.range 16, 8 := by
        refine Finset.sum_le_sum fun y hy => Finset.sum_le_sum fun z hz => ?_
        exact left_col c y z (Finset.mem_range.mp hy) (Finset.mem_range.mp hz)
    _ = 2048 := by simp

lemma dir_bound_up (c : Chunk 16 16) :
    (∑ y in Finset.range 16, ∑ z in Finset.range 16, ∑ x in Finset.range 16,
      entryCount c ⟨x, y, z⟩ Face.Up) ≤ 2048 := by
  calc (∑ y in Finset.range 16, ∑ z in Finset.range 16, ∑ x in Finset.range 16,
        entryCount c ⟨x, y, z⟩ Face.Up)
      = ∑ z in Finset.range 16, ∑ y in Finset.range 16, ∑ x in Finset.range 16,
          entryCount c ⟨x, y, z⟩ Face.Up := Finset.sum_comm
    _ = ∑ z in Finset.range 16, ∑ x in Finset.range 16, ∑ y in Finset.range 16,
          entryCount c ⟨x, y, z⟩ Face.Up :=
        Finset.sum_congr rfl fun _ _ => Finset.sum_comm
    _ ≤ ∑ _z in Finset.range 16, ∑ _x in Finset.range 16, 8 := by
        refine Finset.sum_le_sum fun z hz => Finset.sum_le_sum fun x hx => ?_
        exact up_col c x z (Finset.mem_range.mp hx) (Finset.mem_range.mp hz)
    _ = 2048 := by simp

lemma dir_bound_down (c : Chunk 16 16) :
    (∑ y in Finset.range 16, ∑ z in Finset.range 16, ∑ x in Finset.range 16,
      entryCount c ⟨x, y, z⟩ Face.Down) ≤ 2048 := by
  calc (∑ y in Finset.range 16, ∑ z in Finset.range 16, ∑ x in Finset.range 16,
        entryCount c ⟨x, y, z⟩ Face.Down)
      = ∑ z in Finset.range 16, ∑ y in Finset.range 16, ∑ x in Finset.range 16,
          entryCount c ⟨x, y, z⟩ Face.Down := Finset.sum_comm
    _ = ∑ z in Finset.range 16, ∑ x in Finset.range 16, ∑ y in Finset.range 16,
          entryCount c ⟨x, y, z⟩ Face.Down :=
        Finset.sum_congr rfl fun _ _ => Finset.sum_comm
    _ ≤ ∑ _z in Finset.range 16, ∑ _x in Finset.range 16, 8 := by
        refine Finset.sum_le_sum fun z hz => Finset.sum_le_sum fun x hx => ?_
        exact down_col c x z (Finset.mem_range.mp hx) (Finset.mem_range.mp hz)
    _ = 2048 := by simp

/-- A 16×16×16 chunk produces at most 6·(16·16·8) = 12288 visible faces. -/
lemma faceEntries_length_le (c : Chunk 16 16) :
    (faceEntries c).length ≤ 12288 := by
  rw [faceEntries_length_sum]
  have hexp : ∀ p : BlockPos,
      (faceOrder.map (entryCount c p)).sum
        = entryCount c p .Front + entryCount c p .Back + entryCount c p .Up
          + entryCount c p .Down + entryCount c p .Left
          + entryCount c p .Right := by
    intro p
    simp [faceOrder]
    omega
  rw [Finset.sum_congr rfl fun y _ => Finset.sum_congr rfl fun z _ =>
    Finset.sum_congr rfl fun x _ => hexp ⟨x, y, z⟩]
  simp only [Finset.sum_add_distrib]
  have h1 := dir_bound_front c
  have h2 := dir_bound_back c
  have h3 := dir_bound_up c
  have h4 := dir_bound_down c
  have h5 := dir_bound_left c
  have h6 := dir_bound_right c
  omega

/-- `MeshBuilder::push` with unbounded (non-wrapping) index arithmetic, used
to state that the real `u16` arithmetic never wraps. -/
def MeshBuilder.pushNat (b : MeshBuilder) (m : Mesh) (p : BlockPos) :
    MeshBuilder :=
  let max_idx := m.indices.foldl Nat.max 0
  { vertices := b.vertices ++ m.vertices.map fun v => v.translate p,
    indices := b.indices ++ m.indices.map fun i => b.curr_idx + i,
    curr_idx := b.curr_idx + max_idx + 1 }

/-- The push loop with non-wrapping arithmetic, from an arbitrary builder. -/
def pushAllNatFrom (b : MeshBuilder) (l : List (Face × BlockPos)) :
    MeshBuilder :=
  l.foldl (fun b fp => b.pushNat fp.1.mesh fp.2) b

/-- The push loop with non-wrapping arithmetic, from a fresh builder. -/
def pushAllNat (l : List (Face × BlockPos)) : MeshBuilder :=
  pushAllNatFrom MeshBuilder.new l

lemma pushNat_face_eq (b : MeshBuilder) (f : Face) (p : BlockPos) :
    b.pushNat f.mesh p
      = ⟨b.vertices ++ f.mesh.vertices.map fun v => v.translate p,
         b.indices ++ [b.curr_idx + 0, b.curr_idx + 1, b.curr_idx + 2,
           b.curr_idx + 0, b.curr_idx + 3, b.curr_idx + 1],
         b.curr_idx + 3 + 1⟩ := by
  cases f <;> rfl

/-- As long as at most 16384 faces are pushed in total, the wrapping `u16`
builder and the unbounded builder produce identical vertex and index lists. -/
lemma pushAll_eq_pushNat (l : List (Face × BlockPos)) :
    ∀ (bW bN : MeshBuilder) (k : Nat),
      bW.indices = bN.indices → bW.vertices = bN.vertices →
      bW.curr_idx = 4 * (k % 16384) → bN.curr_idx = 4 * k →
      k + l.length ≤ 16384 →
      (pushAllFrom bW l).indices = (pushAllNatFrom bN l).indices
      ∧ (pushAllFrom bW l).vertices = (pushAllNatFrom bN l).vertices := by
  induction l with
  | nil => intro bW bN k h1 h2 _ _ _; exact ⟨h1, h2⟩
  | cons fp t ih =>
      intro bW bN k h1 h2 h3 h4 h5
      rw [List.length_cons] at h5
      have hWs := push_face_eq bW fp.1 fp.2
      have hNs := pushNat_face_eq bN fp.1 fp.2
      have hcurr : bW.curr_idx = bN.curr_idx := by
        rw [h3, h4, Nat.mod_eq_of_lt (by omega)]
      have hfoldW : pushAllFrom bW (fp :: t)
          = pushAllFrom (bW.push fp.1.mesh fp.2) t := rfl
      have hfoldN : pushAllNatFrom bN (fp :: t)
          = pushAllNatFrom (bN.pushNat fp.1.mesh fp.2) t := rfl
      rw [hfoldW, hfoldN]
      refine ih _ _ (k + 1) ?_ ?_ ?_ ?_ (by omega)
      · rw [hWs, hNs]
        dsimp only
        rw [h1, hcurr, h4]
        simp only [List.append_cancel_left_eq, List.cons.injEq, and_true]
        omega
      · rw [hWs, hNs]
        dsimp only
        rw [h2]
      · rw [hWs]
        dsimp only
        omega
      · rw [hNs]
        dsimp only
        omega

/-- Claim C10: for every 16×16×16 chunk, the mesher emits at most 12288
faces, so pushing all of them (as `VoxelMesh::mesh` does) leaves the
builder's running `u16` counter at exactly `4·N ≤ 49152`, every emitted
index fits in a `u16`, and the wrapping arithmetic agrees everywhere with
unbounded arithmetic (no index ever wraps). -/
theorem chunk16_mesh_no_overflow (c : Chunk 16 16) (m : VoxelMesh) :
    (m.serialize_chunk c).faces.length ≤ 12288
    ∧ (pushAll ((m.serialize_chunk c).faces.zip
          (m.serialize_chunk c).positions)).curr_idx
        = 4 * (m.serialize_chunk c).faces.length
    ∧ 4 * (m.serialize_chunk c).faces.length ≤ 49152
    ∧ (∀ i ∈ (pushAll ((m.serialize_chunk c).faces.zip
          (m.serialize_chunk c).positions)).indices, i < 65536)
    ∧ (pushAll ((m.serialize_chunk c).faces.zip
          (m.serialize_chunk c).positions)).indices
        = (pushAllNat ((m.serialize_chunk c).faces.zip
          (m.serialize_chunk c).positions)).indices := by
  have hE := serialize_chunk_eq m c
  have hflen : (m.serialize_chunk c).faces.length = (faceEntries c).length := by
    rw [hE]
    simp
  have hplen : (m.serialize_chunk c).positions.length
      = (faceEntries c).length := by
    rw [hE]
    simp
  have hzlen : ((m.serialize_chunk c).faces.zip
      (m.serialize_chunk c).positions).length = (faceEntries c).length := by
    rw [List.length_zip, hflen, hplen, Nat.min_self]
  have hb : (faceEntries c).length ≤ 12288 := faceEntries_length_le c
  have hinv := pushAllFrom_inv ((m.serialize_chunk c).faces.zip
      (m.serialize_chunk c).positions) MeshBuilder.new 0 rfl rfl rfl
    (by intro i hmem; cases hmem)
  rw [hzlen] at hinv
  refine ⟨by omega, ?_, by omega, ?_, ?_⟩
  · have h := hinv.1
    rw [Nat.zero_add, Nat.mod_eq_of_lt (by omega)] at h
    rw [show pushAll ((m.serialize_chunk c).faces.zip
        (m.serialize_chunk c).positions) = pushAllFrom MeshBuilder.new
        ((m.serialize_chunk c).faces.zip (m.serialize_chunk c).positions)
      from rfl, h, hflen]
  · intro i hmem
    have h := hinv.2.2.2 i hmem
    omega
  · have h := pushAll_eq_pushNat ((m.serialize_chunk c).faces.zip
        (m.serialize_chunk c).positions) MeshBuilder.new MeshBuilder.new 0
      rfl rfl rfl rfl (by rw [hzlen]; omega)
    exact h.1

/-- Witness for `chunk16_mesh_no_overflow`: the all-`Air` 16×16×16 chunk. -/
theorem chunk16_mesh_no_overflow_witness :
    (VoxelMesh.new.serialize_chunk (Chunk.new : Chunk 16 16)).faces.length
        ≤ 12288
    ∧ (pushAll ((VoxelMesh.new.serialize_chunk
          (Chunk.new : Chunk 16 16)).faces.zip
          (VoxelMesh.new.serialize_chunk
            (Chunk.new : Chunk 16 16)).positions)).curr_idx
        = 4 * (VoxelMesh.new.serialize_chunk
            (Chunk.new : Chunk 16 16)).faces.length
    ∧ 4 * (VoxelMesh.new.serialize_chunk
          (Chunk.new : Chunk 16 16)).faces.length ≤ 49152
    ∧ (∀ i ∈ (pushAll ((VoxelMesh.new.serialize_chunk
          (Chunk.new : Chunk 16 16)).faces.zip
          (VoxelMesh.new.serialize_chunk
            (Chunk.new : Chunk 16 16)).positions)).indices, i < 65536)
    ∧ (pushAll ((VoxelMesh.new.serialize_chunk
          (Chunk.new : Chunk 16 16)).faces.zip
          (VoxelMesh.new.serialize_chunk
            (Chunk.new : Chunk 16 16)).positions)).indices
        = (pushAllNat ((VoxelMesh.new.serialize_chunk
          (Chunk.new : Chunk 16 16)).faces.zip
          (VoxelMesh.new.serialize_chunk
            (Chunk.new : Chunk 16 16)).positions)).indices :=
  chunk16_mesh_no_overflow Chunk.new VoxelMesh.new

end WgpuRenderer
